import Mathlib

/-!
Verification of the credential store (`src/frontend/src/store/credential.js`).

The store keeps five mappings (`secretBindings`, `secrets`, `credentialsBindings`,
`workloadIdentities`, `quotas`), each a JavaScript object used as an insertion-ordered
map from `namespace/name` keys to resource records.  The embedding below models

  * JavaScript objects as insertion-ordered association lists (`ObjMap`) with
    property assignment (`objSet`, replace-in-place or append) and property
    deletion (list `filter`);
  * JavaScript strings as Lean `String`, with `startsWith` / `slice` embedded
    as character-list operations (`jsStartsWith`, `jsSlice`);
  * the asynchronous API boundary as an `Except`-valued input: an exception
    thrown by the external call aborts the function body before any store
    mutation, which the embedding renders by returning the unchanged state
    together with the re-raised error.
-/

/-- Resource metadata, as read by the store: `namespace`, `name`, `uid` and the
optional `labels` object (an insertion-ordered string-to-string mapping).
`namespace` is a Lean keyword, hence the primed field name. -/
structure Metadata where
  namespace' : String
  name : String
  uid : String
  labels : Option (List (String × String)) := none
deriving Repr, DecidableEq

/-- The `provider` field of a binding; `type` is a Lean keyword, hence primed. -/
structure Provider where
  type' : String
deriving Repr, DecidableEq

/-- The `secretRef` field of a virtual binding synthesized from a Secret. -/
structure SecretRef where
  name : String
  namespace' : String
deriving Repr, DecidableEq

/-- The `credentialsRef` field of a virtual binding synthesized from a WorkloadIdentity. -/
structure CredentialsRef where
  name : String
  namespace' : String
  kind : String
  apiVersion : Option String
deriving Repr, DecidableEq

/-- A duck-typed resource record.  Fields that a given record kind does not
carry are `none`, mirroring absent properties of a plain JavaScript object.
`kind` is optional because list endpoints may omit it. -/
structure Record where
  kind : Option String := none
  apiVersion : Option String := none
  metadata : Metadata
  provider : Option Provider := none
  secretRef : Option SecretRef := none
  credentialsRef : Option CredentialsRef := none
deriving Repr, DecidableEq

/-- One of the five store mappings: a JavaScript object keyed by strings, i.e.
an insertion-ordered association list.  (Keys of the real objects always
contain a `/`, so the JavaScript integer-index reordering rule never applies.) -/
abbrev ObjMap := List (String × Record)

/-- JavaScript property read `m[k]` (unique keys: first match). -/
def objGet (m : ObjMap) (k : String) : Option Record :=
  match m with
  | [] => none
  | (k', v) :: rest => if k' = k then some v else objGet rest k

/-- JavaScript property write `m[k] = v` (lodash `set(m, [k], v)`): replace in
place when the key exists, otherwise append at the end. -/
def objSet (m : ObjMap) (k : String) (v : Record) : ObjMap :=
  match m with
  | [] => [(k, v)]
  | (k', v') :: rest => if k' = k then (k, v) :: rest else (k', v') :: objSet rest k v

/-- Sequential property writes, leftmost first (later writes win). -/
def objSetList (l : List (String × Record)) (m : ObjMap) : ObjMap :=
  l.foldl (fun m p => objSet m p.1 p.2) m

/-- Well-formedness of a mapping: keys are pairwise distinct, which holds for
every JavaScript object and is preserved by all store operations. -/
def WfMap (m : ObjMap) : Prop :=
  (m.map Prod.fst).Nodup

instance (m : ObjMap) : Decidable (WfMap m) := by
  unfold WfMap; infer_instance

/-- JavaScript `s.startsWith(p)`: `p` is a prefix of the character sequence of `s`. -/
def jsStartsWith (s p : String) : Bool :=
  p.data.isPrefixOf s.data

/-- JavaScript `s.slice(n)` (drop the first `n` characters). -/
def jsSlice (s : String) (n : Nat) : String :=
  ⟨s.data.drop n⟩

/-- `namespaceNameKey({namespace, name})`, the Key Index function. -/
def namespaceNameKey (m : Metadata) : String :=
  m.namespace' ++ "/" ++ m.name

/-- The fixed capability-namespace label prefix. -/
def providerPrefix : String := "provider.shoot.gardener.cloud/"

/-- `providerTypesFromLabels(labels)`: the capability extractor.
`Object.entries(labels || {})`, filtered to entries whose value is exactly
`'true'` and whose key starts with the provider prefix, each key with the
prefix stripped, in insertion order. -/
def providerTypesFromLabels (labels : Option (List (String × String))) : List String :=
  ((labels.getD []).filter fun kv => kv.2 == "true" && jsStartsWith kv.1 providerPrefix).map
    fun kv => jsSlice kv.1 providerPrefix.length

/-- The virtual binding object built for a Secret owner and one capability tag
(lines 96-104 and 230-239 of the source, which are identical). -/
def mkSecretVirtualBinding (meta : Metadata) (t : String) : Record :=
  { kind := some "Secret"
    metadata := { meta with uid := meta.uid ++ "-" ++ t }
    provider := some { type' := t }
    secretRef := some { name := meta.name, namespace' := meta.namespace' } }

/-- The virtual binding object built for a WorkloadIdentity owner and one
capability tag (lines 121-132 of the source). -/
def mkWorkloadIdentityVirtualBinding (apiVersion : Option String) (meta : Metadata)
    (t : String) : Record :=
  { kind := some "WorkloadIdentity"
    apiVersion := apiVersion
    metadata := { meta with uid := meta.uid ++ "-" ++ t }
    provider := some { type' := t }
    credentialsRef := some
      { name := meta.name, namespace' := meta.namespace'
        kind := "WorkloadIdentity", apiVersion := apiVersion } }

/-- The per-tag insertion loop for a Secret owner:
`providerTypesFromLabels(...).forEach(type => set(credentialsBindings, [key + '/' + type], ...))`. -/
def insertSecretVirtualBindings (meta : Metadata) (cb : ObjMap) : ObjMap :=
  (providerTypesFromLabels meta.labels).foldl
    (fun cb t => objSet cb (namespaceNameKey meta ++ "/" ++ t) (mkSecretVirtualBinding meta t)) cb

/-- The per-tag insertion loop for a WorkloadIdentity owner. -/
def insertWorkloadIdentityVirtualBindings (apiVersion : Option String) (meta : Metadata)
    (cb : ObjMap) : ObjMap :=
  (providerTypesFromLabels meta.labels).foldl
    (fun cb t => objSet cb (namespaceNameKey meta ++ "/" ++ t)
      (mkWorkloadIdentityVirtualBinding apiVersion meta t)) cb

/-- The five store mappings (`state` in the source). -/
structure State where
  secretBindings : ObjMap
  secrets : ObjMap
  credentialsBindings : ObjMap
  workloadIdentities : ObjMap
  quotas : ObjMap
deriving Repr, DecidableEq

/-- `$reset()`: clears all five mappings. -/
def resetState (_s : State) : State :=
  { secretBindings := [], secrets := [], credentialsBindings := []
    workloadIdentities := [], quotas := [] }

/-- The argument of `_setCredentials`: the five fetched collections, each
possibly absent (optional chaining `?.forEach` skips absent ones). -/
structure CredData where
  secretBindings : Option (List Record) := none
  secrets : Option (List Record) := none
  credentialsBindings : Option (List Record) := none
  workloadIdentities : Option (List Record) := none
  quotas : Option (List Record) := none
deriving Repr

/-- `_setCredentials`: `$reset()` followed by the five `forEach` loops, in
source order.  Each loop upserts its records under `namespaceNameKey`,
stamping `item.kind` with the mapping's kind (except quotas); the secrets and
workload-identities loops additionally insert the virtual bindings for each
item into `credentialsBindings` as they go. -/
def _setCredentials (_s : State) (d : CredData) : State :=
  let secretBindings : ObjMap :=
    (d.secretBindings.getD []).foldl (fun m item =>
      objSet m (namespaceNameKey item.metadata) { item with kind := some "SecretBinding" }) []
  let secretsAndCb : ObjMap × ObjMap :=
    (d.secrets.getD []).foldl (fun acc item =>
      (objSet acc.1 (namespaceNameKey item.metadata) { item with kind := some "Secret" },
       insertSecretVirtualBindings item.metadata acc.2)) ([], [])
  let credentialsBindings : ObjMap :=
    (d.credentialsBindings.getD []).foldl (fun m item =>
      objSet m (namespaceNameKey item.metadata) { item with kind := some "CredentialsBinding" })
      secretsAndCb.2
  let wiAndCb : ObjMap × ObjMap :=
    (d.workloadIdentities.getD []).foldl (fun acc item =>
      (objSet acc.1 (namespaceNameKey item.metadata) { item with kind := some "WorkloadIdentity" },
       insertWorkloadIdentityVirtualBindings item.apiVersion item.metadata acc.2))
      ([], credentialsBindings)
  let quotas : ObjMap :=
    (d.quotas.getD []).foldl (fun m item => objSet m (namespaceNameKey item.metadata) item) []
  { secretBindings := secretBindings, secrets := secretsAndCb.1
    credentialsBindings := wiAndCb.2, workloadIdentities := wiAndCb.1, quotas := quotas }

/-- `cloudProviderBindingList`: `Object.values(secretBindings)` followed by
`Object.values(credentialsBindings)`. -/
def cloudProviderBindingList (s : State) : List Record :=
  s.secretBindings.map Prod.snd ++ s.credentialsBindings.map Prod.snd

/-- `_updateCloudProviderCredential({binding, secret})`: upsert the optional
authoritative binding by its kind; for the optional secret, upsert it into
`secrets`, delete every credentials-bindings entry whose key equals the
secret's key or starts with it followed by `/` **and** whose kind is
`'Secret'`, then re-insert the secret's virtual bindings. -/
def _updateCloudProviderCredential (s : State) (binding : Option Record)
    (secret : Option Record) : State :=
  let s : State :=
    match binding with
    | none => s
    | some b =>
      if b.kind = some "SecretBinding" then
        { s with secretBindings := objSet s.secretBindings (namespaceNameKey b.metadata) b }
      else if b.kind = some "CredentialsBinding" then
        { s with credentialsBindings :=
            objSet s.credentialsBindings (namespaceNameKey b.metadata) b }
      else s
  match secret with
  | none => s
  | some sec =>
    let key := namespaceNameKey sec.metadata
    let secrets := objSet s.secrets key sec
    let cb := s.credentialsBindings.filter fun p =>
      !((p.1 == key || jsStartsWith p.1 (key ++ "/")) && p.2.kind == some "Secret")
    let cb := insertSecretVirtualBindings sec.metadata cb
    { s with secrets := secrets, credentialsBindings := cb }

/-- `fetchCredentials()`: the external fetch either yields the five collections
or throws.  On success the result is handed to `_setCredentials`; on failure
the store is `$reset` and the error re-raised (returned alongside the state). -/
def fetchCredentials {ε : Type} (fetched : Except ε CredData) (s : State) :
    State × Option ε :=
  match fetched with
  | Except.ok d => (_setCredentials s d, none)
  | Except.error e => (resetState s, some e)

/-- `createCredential(params)`: the external create call either returns the
authoritative `{binding, secret}` or throws before any store mutation. -/
def createCredential {ε : Type} (resp : Except ε (Record × Option Record)) (s : State) :
    State × Option ε :=
  match resp with
  | Except.ok (binding, secret) => (_updateCloudProviderCredential s (some binding) secret, none)
  | Except.error e => (s, some e)

/-- `updateCredential(params)`: the external update call either returns the
authoritative updated secret or throws before any store mutation. -/
def updateCredential {ε : Type} (resp : Except ε Record) (s : State) :
    State × Option ε :=
  match resp with
  | Except.ok updatedSecret =>
    (_updateCloudProviderCredential s none (some updatedSecret), none)
  | Except.error e => (s, some e)

/-- Follows the spec's words (§4.4, step 2): remove every credentials-bindings
entry whose key equals `ownerKey` or starts with `ownerKey + "/"` and whose
kind equals the owner's kind. -/
def deleteOwnerScopedSpec (ownerKind : String) (ownerKey : String) (cb : ObjMap) : ObjMap :=
  cb.filter fun p =>
    !((p.1 == ownerKey || jsStartsWith p.1 (ownerKey ++ "/")) && p.2.kind == some ownerKind)

/-- Follows the spec's words (§4.4): synthesize a Secret owner's virtual
bindings — kind-scoped removal, then insertion of one virtual binding per
capability tag. -/
def synthesizeSecretSpec (meta : Metadata) (cb : ObjMap) : ObjMap :=
  insertSecretVirtualBindings meta (deleteOwnerScopedSpec "Secret" (namespaceNameKey meta) cb)

/-- Follows the spec's words (§4.4): synthesize a WorkloadIdentity owner's
virtual bindings. -/
def synthesizeWorkloadIdentitySpec (apiVersion : Option String) (meta : Metadata)
    (cb : ObjMap) : ObjMap :=
  insertWorkloadIdentityVirtualBindings apiVersion meta
    (deleteOwnerScopedSpec "WorkloadIdentity" (namespaceNameKey meta) cb)

/-- Follows the spec's words (§4.3, `replaceAll`): reset, then upsert every
element of each supplied collection (kind-stamped), and only then invoke the
synthesizer for each inserted Secret and WorkloadIdentity. -/
def replaceAllSpec (_s : State) (d : CredData) : State :=
  let secretBindings : ObjMap :=
    (d.secretBindings.getD []).foldl (fun m item =>
      objSet m (namespaceNameKey item.metadata) { item with kind := some "SecretBinding" }) []
  let secrets : ObjMap :=
    (d.secrets.getD []).foldl (fun m item =>
      objSet m (namespaceNameKey item.metadata) { item with kind := some "Secret" }) []
  let credentialsBindings : ObjMap :=
    (d.credentialsBindings.getD []).foldl (fun m item =>
      objSet m (namespaceNameKey item.metadata) { item with kind := some "CredentialsBinding" }) []
  let workloadIdentities : ObjMap :=
    (d.workloadIdentities.getD []).foldl (fun m item =>
      objSet m (namespaceNameKey item.metadata) { item with kind := some "WorkloadIdentity" }) []
  let quotas : ObjMap :=
    (d.quotas.getD []).foldl (fun m item => objSet m (namespaceNameKey item.metadata) item) []
  let credentialsBindings : ObjMap :=
    (d.secrets.getD []).foldl (fun cb item => synthesizeSecretSpec item.metadata cb)
      credentialsBindings
  let credentialsBindings : ObjMap :=
    (d.workloadIdentities.getD []).foldl (fun cb item =>
      synthesizeWorkloadIdentitySpec item.apiVersion item.metadata cb) credentialsBindings
  { secretBindings := secretBindings, secrets := secrets
    credentialsBindings := credentialsBindings, workloadIdentities := workloadIdentities
    quotas := quotas }

/-- Slash-freeness of a resource's identifying metadata: its `namespace` and
`name` contain no `/`, the spec's key-space separation assumption (§3,
invariant 2). -/
def SlashFree (m : Metadata) : Prop :=
  '/' ∉ m.namespace'.data ∧ '/' ∉ m.name.data

instance (m : Metadata) : Decidable (SlashFree m) := by
  unfold SlashFree; infer_instance

/-- The key/value pairs inserted by `insertSecretVirtualBindings`. -/
def secretVirtKVs (meta : Metadata) : List (String × Record) :=
  (providerTypesFromLabels meta.labels).map fun t =>
    (namespaceNameKey meta ++ "/" ++ t, mkSecretVirtualBinding meta t)

/-- The key/value pairs inserted by `insertWorkloadIdentityVirtualBindings`. -/
def workloadIdentityVirtKVs (apiVersion : Option String) (meta : Metadata) :
    List (String × Record) :=
  (providerTypesFromLabels meta.labels).map fun t =>
    (namespaceNameKey meta ++ "/" ++ t, mkWorkloadIdentityVirtualBinding apiVersion meta t)

/-- The single Secret of the end-to-end scenario of C5. -/
def e2eSecret : Record :=
  { metadata := { namespace' := "a", name := "s1", uid := "u1"
                  labels := some [("provider.shoot.gardener.cloud/aws", "true")] } }

/-- The fetch result of the end-to-end scenario of C5: one Secret, every other
collection empty. -/
def e2eData : CredData :=
  { secretBindings := some [], secrets := some [e2eSecret], credentialsBindings := some []
    workloadIdentities := some [], quotas := some [] }

/-- A secret binding whose kind was already set by the source, to a value
other than the mapping's kind. -/
def taggedSourceRecord : Record :=
  { kind := some "Foo", metadata := { namespace' := "a", name := "x", uid := "u" } }

/-- An explicit credentials binding with a source-set kind, for the C7
witness. -/
def c7CbRecord : Record :=
  { kind := some "Foo", metadata := { namespace' := "a", name := "cb", uid := "c1" } }

/-- Concrete store for the C2 witness: one explicit CredentialsBinding under
the same namespace/name as the secret being re-synthesized. -/
def c2Store : State :=
  { secretBindings := [], secrets := []
    credentialsBindings :=
      [("a/x", { kind := some "CredentialsBinding"
                 metadata := { namespace' := "a", name := "x", uid := "cb" } })]
    workloadIdentities := [], quotas := [] }

/-- Concrete store for the C3 witness. -/
def c3Store : State :=
  { secretBindings := [], secrets := []
    credentialsBindings :=
      [("a/x/old", { kind := some "Secret"
                     metadata := { namespace' := "a", name := "x", uid := "v" } })]
    workloadIdentities := [], quotas := [] }

/-- The secret of the C3 witness, with one capability label. -/
def c3Secret : Record :=
  { metadata := { namespace' := "a", name := "x", uid := "u"
                  labels := some [("provider.shoot.gardener.cloud/aws", "true")] } }

/-- An owner Secret carrying exactly the two capability labels `A` and `B`. -/
def labeledSecret (ns nm uid A B : String) : Record :=
  { metadata := { namespace' := ns, name := nm, uid := uid
                  labels := some [(providerPrefix ++ A, "true"),
                                  (providerPrefix ++ B, "true")] } }

/-- First of two fetched secrets sharing the key `a/s1` (C6 counterexample). -/
def dupSecretA : Record :=
  { metadata := { namespace' := "a", name := "s1", uid := "u1"
                  labels := some [("provider.shoot.gardener.cloud/aws", "true")] } }

/-- Second of two fetched secrets sharing the key `a/s1`, without labels. -/
def dupSecretB : Record :=
  { metadata := { namespace' := "a", name := "s1", uid := "u2" } }

/-- The duplicate-key fetch payload of the C6 counterexample. -/
def dupData : CredData := { secrets := some [dupSecretA, dupSecretB] }

/-- All virtual-binding key/value pairs produced from the fetched secrets. -/
def secretVirtKVsAll (d : CredData) : List (String × Record) :=
  (d.secrets.getD []).flatMap fun item => secretVirtKVs item.metadata

/-- The kind-stamped key/value pairs of the fetched explicit credentials bindings. -/
def explicitCbKVs (d : CredData) : List (String × Record) :=
  (d.credentialsBindings.getD []).map fun item =>
    (namespaceNameKey item.metadata, { item with kind := some "CredentialsBinding" })

/-- All virtual-binding key/value pairs produced from the fetched workload identities. -/
def workloadIdentityVirtKVsAll (d : CredData) : List (String × Record) :=
  (d.workloadIdentities.getD []).flatMap fun item =>
    workloadIdentityVirtKVs item.apiVersion item.metadata

/-- Concrete fetch payload for the C6 witness: one secret binding, one labeled
secret, one explicit credentials binding, one labeled workload identity and
one quota. -/
def c6Data : CredData :=
  { secretBindings := some [{ metadata := { namespace' := "a", name := "sb", uid := "0" } }]
    secrets := some [{ metadata := { namespace' := "a", name := "s1", uid := "u1"
                                     labels := some [("provider.shoot.gardener.cloud/aws",
                                                      "true")] } }]
    credentialsBindings := some [{ metadata := { namespace' := "a", name := "cb", uid := "c1" } }]
    workloadIdentities := some [{ apiVersion := some "v1"
                                  metadata := { namespace' := "a", name := "w1", uid := "w"
                                                labels := some [("provider.shoot.gardener.cloud/gcp",
                                                                 "true")] } }]
    quotas := some [{ metadata := { namespace' := "a", name := "q", uid := "q1" } }] }

/-- A nonempty prior store for the C6 witness, showing prior data does not
survive. -/
def c6PriorStore : State :=
  { secretBindings := [("p/q", { metadata := { namespace' := "p", name := "q", uid := "r" } })]
    secrets := [], credentialsBindings := [], workloadIdentities := [], quotas := [] }

/-! ### Association-list lemmas -/

theorem objGet_objSet_self (m : ObjMap) (k : String) (v : Record) :
    objGet (objSet m k v) k = some v := by
  induction m with
  | nil => simp [objSet, objGet]
  | cons p rest ih =>
    by_cases h : p.1 = k
    · simp [objSet, objGet, h]
    · simp [objSet, objGet, h, ih]

theorem objGet_objSet_ne (m : ObjMap) (k k' : String) (v : Record) (h : k' ≠ k) :
    objGet (objSet m k v) k' = objGet m k' := by
  have h' : ¬k = k' := fun hh => h hh.symm
  induction m with
  | nil => simp [objSet, objGet, h']
  | cons p rest ih =>
    obtain ⟨k₀, v₀⟩ := p
    by_cases hp : k₀ = k
    · subst hp
      simp [objSet, objGet, h']
    · simp [objSet, objGet, hp, ih]

theorem objGet_append (m₁ m₂ : ObjMap) (k : String) :
    objGet (m₁ ++ m₂) k =
      match objGet m₁ k with
      | some v => some v
      | none => objGet m₂ k := by
  induction m₁ with
  | nil => simp [objGet]
  | cons p rest ih =>
    by_cases h : p.1 = k
    · simp [objGet, h]
    · simp [objGet, h, ih]

theorem objGet_eq_none_iff (m : ObjMap) (k : String) :
    objGet m k = none ↔ k ∉ m.map Prod.fst := by
  induction m with
  | nil => simp [objGet]
  | cons p rest ih =>
    by_cases h : p.1 = k
    · simp [objGet, h]
    · simp [objGet, h, ih, Ne.symm h]

theorem mem_of_objGet_eq_some {m : ObjMap} {k : String} {v : Record}
    (h : objGet m k = some v) : (k, v) ∈ m := by
  induction m with
  | nil => simp [objGet] at h
  | cons p rest ih =>
    obtain ⟨k₀, v₀⟩ := p
    by_cases hp : k₀ = k
    · subst hp
      simp only [objGet, if_true, Option.some.injEq] at h
      subst h
      exact List.mem_cons_self ..
    · simp only [objGet, if_neg hp] at h
      exact List.mem_cons_of_mem _ (ih h)

theorem objGet_objSetList (l : List (String × Record)) (m : ObjMap) (k : String) :
    objGet (objSetList l m) k =
      match objGet l.reverse k with
      | some v => some v
      | none => objGet m k := by
  induction l generalizing m with
  | nil => simp [objSetList, objGet]
  | cons p rest ih =>
    show objGet (objSetList rest (objSet m p.1 p.2)) k = _
    rw [ih, List.reverse_cons, objGet_append]
    cases hr : objGet rest.reverse k with
    | some v => rfl
    | none =>
      by_cases h : p.1 = k
      · subst h
        simp [objGet, objGet_objSet_self]
      · simp [objGet, h, objGet_objSet_ne m p.1 k p.2 (Ne.symm h)]

theorem objGet_filter {m : ObjMap} (hm : WfMap m) (p : String × Record → Bool) (k : String) :
    objGet (m.filter p) k =
      match objGet m k with
      | some v => if p (k, v) then some v else none
      | none => none := by
  induction m with
  | nil => simp [objGet]
  | cons q rest ih =>
    obtain ⟨k₀, v₀⟩ := q
    have hrest : WfMap rest := (List.nodup_cons.mp hm).2
    have hq : k₀ ∉ rest.map Prod.fst := (List.nodup_cons.mp hm).1
    by_cases hk : k₀ = k
    · subst hk
      have hfil : objGet (rest.filter p) k₀ = none := by
        rw [objGet_eq_none_iff]
        intro hmem
        rcases List.mem_map.mp hmem with ⟨r, hr, hrk⟩
        exact hq (List.mem_map.mpr ⟨r, (List.mem_filter.mp hr).1, hrk⟩)
      by_cases hp : p (k₀, v₀)
      · simp [List.filter_cons, hp, objGet]
      · simp [List.filter_cons, hp, objGet, hfil]
    · by_cases hp : p (k₀, v₀)
      · simp only [List.filter_cons, hp, if_true]
        simp only [objGet, if_neg hk]
        exact ih hrest
      · simp only [List.filter_cons, hp, Bool.false_eq_true, if_false]
        simp only [objGet, if_neg hk]
        exact ih hrest

theorem mem_objSet {m : ObjMap} {k : String} {v : Record} {q : String × Record}
    (h : q ∈ objSet m k v) : q ∈ m ∨ q = (k, v) := by
  induction m with
  | nil => simp [objSet] at h; simp [h]
  | cons p rest ih =>
    by_cases hp : p.1 = k
    · simp only [objSet, if_pos hp] at h
      rcases List.mem_cons.mp h with h | h
      · right; exact h
      · left; exact List.mem_cons_of_mem _ h
    · simp only [objSet, if_neg hp] at h
      rcases List.mem_cons.mp h with h | h
      · left; simp [h]
      · rcases ih h with h | h
        · left; exact List.mem_cons_of_mem _ h
        · right; exact h

theorem mem_objSetList {l : List (String × Record)} {m : ObjMap} {q : String × Record}
    (h : q ∈ objSetList l m) : q ∈ m ∨ q ∈ l := by
  induction l generalizing m with
  | nil => left; exact h
  | cons p rest ih =>
    rcases ih (by exact h) with h' | h'
    · rcases mem_objSet h' with h'' | h''
      · left; exact h''
      · right; simp [h'']
    · right; exact List.mem_cons_of_mem _ h'

theorem map_fst_objSet (m : ObjMap) (k : String) (v : Record) :
    (objSet m k v).map Prod.fst =
      if k ∈ m.map Prod.fst then m.map Prod.fst else m.map Prod.fst ++ [k] := by
  induction m with
  | nil => simp [objSet]
  | cons p rest ih =>
    obtain ⟨k₀, v₀⟩ := p
    by_cases hk : k₀ = k
    · subst hk; simp [objSet]
    · by_cases hmem : k ∈ rest.map Prod.fst <;>
        simp [objSet, hk, ih, Ne.symm hk, hmem]

theorem wfMap_objSet {m : ObjMap} (hm : WfMap m) (k : String) (v : Record) :
    WfMap (objSet m k v) := by
  unfold WfMap at hm ⊢
  rw [map_fst_objSet]
  by_cases hmem : k ∈ m.map Prod.fst
  · simpa [hmem] using hm
  · simp only [hmem, if_false]
    simp [List.nodup_append, hm, hmem]

theorem wfMap_filter {m : ObjMap} (hm : WfMap m) (p : String × Record → Bool) :
    WfMap (m.filter p) := by
  unfold WfMap
  exact hm.sublist ((List.filter_sublist m).map Prod.fst)

theorem wfMap_objSetList {m : ObjMap} (hm : WfMap m) (l : List (String × Record)) :
    WfMap (objSetList l m) := by
  induction l generalizing m with
  | nil => exact hm
  | cons q rest ih => exact ih (wfMap_objSet hm q.1 q.2)

theorem objSetList_append (l₁ l₂ : List (String × Record)) (m : ObjMap) :
    objSetList (l₁ ++ l₂) m = objSetList l₂ (objSetList l₁ m) :=
  List.foldl_append ..

theorem objGet_eq_head?_filter (m : ObjMap) (k : String) :
    objGet m k = ((m.filter fun p => p.1 == k).head?).map Prod.snd := by
  induction m with
  | nil => simp [objGet]
  | cons p rest ih =>
    by_cases h : p.1 = k
    · obtain ⟨p1, p2⟩ := p; cases h
      simp [objGet, List.filter_cons]
    · simp [objGet, h, List.filter_cons, ih]

theorem objGet_reverse_eq_getLast?_filter (m : ObjMap) (k : String) :
    objGet m.reverse k = ((m.filter fun p => p.1 == k).getLast?).map Prod.snd := by
  rw [objGet_eq_head?_filter, List.filter_reverse, List.head?_reverse]

/-! ### String lemmas for the JavaScript embedding -/

theorem jsStartsWith_iff (s p : String) : jsStartsWith s p = true ↔ p.data <+: s.data := by
  simp [jsStartsWith, List.isPrefixOf_iff_prefix]

theorem jsStartsWith_append (p t : String) : jsStartsWith (p ++ t) p = true := by
  rw [jsStartsWith_iff, String.data_append]
  exact List.prefix_append ..

theorem jsSlice_append (p t : String) : jsSlice (p ++ t) p.length = t := by
  apply String.ext
  show (p ++ t).data.drop p.length = t.data
  rw [String.data_append]
  exact List.drop_left ..

theorem jsStartsWith_recover {s p : String} (h : jsStartsWith s p = true) :
    s = p ++ jsSlice s p.length := by
  rw [jsStartsWith_iff] at h
  rcases h with ⟨u, hu⟩
  apply String.ext
  rw [String.data_append]
  show s.data = p.data ++ (s.data.drop p.length)
  rw [← hu]
  have hL : p.length = p.data.length := rfl
  rw [hL, List.drop_left]

theorem string_append_cancel_left {a b c : String} (h : a ++ b = a ++ c) : b = c := by
  apply String.ext
  have h' := congrArg String.data h
  rw [String.data_append, String.data_append] at h'
  exact List.append_cancel_left h'

theorem key_ne_key_slash (K t : String) : K ≠ K ++ "/" ++ t := by
  intro h
  have h0 : (K ++ "/" ++ t).data.length = K.data.length + 1 + t.data.length := by
    rw [String.data_append, String.data_append, List.length_append, List.length_append]
    have hone : ("/" : String).data.length = 1 := rfl
    omega
  have h1 : K.data.length = (K ++ "/" ++ t).data.length := by rw [← h]
  omega

theorem slashfree_sep {a : List Char} (ha : '/' ∉ a) :
    ∀ {b : List Char}, '/' ∉ b → ∀ {u v : List Char},
      a ++ '/' :: u <+: b ++ '/' :: v → a = b ∧ u <+: v := by
  induction a with
  | nil =>
    intro b hb u v h
    cases b with
    | nil =>
      refine ⟨rfl, ?_⟩
      simp only [List.nil_append] at h
      exact (List.cons_prefix_cons.mp h).2
    | cons c b' =>
      exfalso
      simp only [List.nil_append, List.cons_append] at h
      have := (List.cons_prefix_cons.mp h).1
      exact hb (this ▸ List.mem_cons_self ..)
  | cons c a' ih =>
    intro b hb u v h
    cases b with
    | nil =>
      exfalso
      simp only [List.cons_append, List.nil_append] at h
      have := (List.cons_prefix_cons.mp h).1
      exact ha (this ▸ List.mem_cons_self ..)
    | cons d b' =>
      simp only [List.cons_append] at h
      have h1 := (List.cons_prefix_cons.mp h).1
      have h2 := (List.cons_prefix_cons.mp h).2
      have ha' : '/' ∉ a' := fun hx => ha (List.mem_cons_of_mem _ hx)
      have hb' : '/' ∉ b' := fun hx => hb (List.mem_cons_of_mem _ hx)
      rcases ih ha' hb' h2 with ⟨heq, hpre⟩
      exact ⟨by rw [h1, heq], hpre⟩

theorem count_slash_key {m : Metadata} (h : SlashFree m) :
    (namespaceNameKey m).data.count '/' = 1 := by
  unfold namespaceNameKey
  rw [String.data_append, String.data_append, List.count_append, List.count_append]
  rw [List.count_eq_zero.mpr h.1, List.count_eq_zero.mpr h.2]
  decide

theorem count_slash_virtualKey (K t : String) :
    (K ++ "/" ++ t).data.count '/' = K.data.count '/' + 1 + t.data.count '/' := by
  rw [String.data_append, String.data_append, List.count_append, List.count_append]
  have : (("/" : String).data.count '/') = 1 := by decide
  omega

/-- The data of a key of the form `ownerKey ++ "/"` re-associated into the
shape `ns ++ '/' :: (name ++ '/' :: tail)` used by `slashfree_sep`. -/
theorem key_slash_data (m : Metadata) (t : String) :
    (namespaceNameKey m ++ "/" ++ t).data =
      m.namespace'.data ++ '/' :: (m.name.data ++ '/' :: t.data) := by
  unfold namespaceNameKey
  simp only [String.data_append]
  simp

theorem key_slash_data' (m : Metadata) :
    (namespaceNameKey m ++ "/").data =
      m.namespace'.data ++ '/' :: (m.name.data ++ '/' :: ([] : List Char)) := by
  have := key_slash_data m ""
  simpa using this

/-- If two slash-free owners have different keys, then no virtual key of the
first one equals the second one's key, nor starts with it followed by `/`. -/
theorem key_shape_separation {m₁ m₂ : Metadata} (h1 : SlashFree m₁) (h2 : SlashFree m₂)
    (hne : namespaceNameKey m₁ ≠ namespaceNameKey m₂) (t : String) :
    namespaceNameKey m₁ ++ "/" ++ t ≠ namespaceNameKey m₂ ∧
      jsStartsWith (namespaceNameKey m₁ ++ "/" ++ t) (namespaceNameKey m₂ ++ "/") = false := by
  constructor
  · intro h
    have hc := congrArg (fun s => s.data.count '/') h
    simp only at hc
    rw [count_slash_virtualKey, count_slash_key h1, count_slash_key h2] at hc
    omega
  · rw [Bool.eq_false_iff]
    intro h
    rw [jsStartsWith_iff] at h
    rw [key_slash_data m₁ t, key_slash_data' m₂] at h
    rcases slashfree_sep h2.1 h1.1 h with ⟨hns, h'⟩
    rcases slashfree_sep h2.2 h1.2 h' with ⟨hname, _⟩
    apply hne
    unfold namespaceNameKey
    rw [String.ext hns.symm, String.ext hname.symm]

/-- A key with exactly one slash (an explicit record's key under slash-free
metadata) is never of the virtual form `K ++ "/" ++ t` with `K` slash-free. -/
theorem explicit_key_ne_virtualKey {m₁ m₂ : Metadata} (h1 : SlashFree m₁)
    (h2 : SlashFree m₂) (t : String) :
    namespaceNameKey m₁ ≠ namespaceNameKey m₂ ++ "/" ++ t := by
  intro h
  have hc := congrArg (fun s => s.data.count '/') h
  simp only at hc
  rw [count_slash_virtualKey, count_slash_key h1, count_slash_key h2] at hc
  omega

/-! ### Fold lemmas -/

theorem foldl_pair {α β γ : Type} (l : List α) (F : β × γ → α → β × γ)
    (f : β → α → β) (g : γ → α → γ) (hF : ∀ p x, F p x = (f p.1 x, g p.2 x))
    (b : β) (c : γ) :
    l.foldl F (b, c) = (l.foldl f b, l.foldl g c) := by
  induction l generalizing b c with
  | nil => rfl
  | cons x xs ih =>
    rw [List.foldl_cons, hF, List.foldl_cons, List.foldl_cons]
    exact ih (f b x) (g c x)

theorem foldl_setList_flatMap {α : Type} (l : List α) (mk : α → List (String × Record))
    (cb : ObjMap) :
    l.foldl (fun cb a => objSetList (mk a) cb) cb = objSetList (l.flatMap mk) cb := by
  induction l generalizing cb with
  | nil => rfl
  | cons a rest ih =>
    show rest.foldl _ (objSetList (mk a) cb) = _
    rw [List.flatMap_cons, objSetList_append]
    exact ih _

theorem foldl_synth_eq {α : Type} (owners : List α) (mk : α → List (String × Record))
    (retain : α → String × Record → Bool) (cb : ObjMap)
    (hcb : ∀ a ∈ owners, ∀ p ∈ cb, retain a p = true)
    (hpair : List.Pairwise (fun a b => ∀ p ∈ mk a, retain b p = true) owners) :
    owners.foldl (fun cb a => objSetList (mk a) (cb.filter (retain a))) cb
      = objSetList (owners.flatMap mk) cb := by
  induction owners generalizing cb with
  | nil => rfl
  | cons a rest ih =>
    have hfa : cb.filter (retain a) = cb :=
      List.filter_eq_self.mpr (hcb a (List.mem_cons_self ..))
    show rest.foldl _ (objSetList (mk a) (cb.filter (retain a))) = _
    rw [hfa, List.flatMap_cons, objSetList_append]
    apply ih
    · intro b hb p hp
      rcases mem_objSetList hp with h' | h'
      · exact hcb b (List.mem_cons_of_mem _ hb) p h'
      · exact (List.pairwise_cons.mp hpair).1 b hb p h'
    · exact (List.pairwise_cons.mp hpair).2

/-! ### Normal forms for the store operations -/

theorem insertSecretVirtualBindings_eq (meta : Metadata) (cb : ObjMap) :
    insertSecretVirtualBindings meta cb = objSetList (secretVirtKVs meta) cb := by
  unfold insertSecretVirtualBindings objSetList secretVirtKVs
  rw [List.foldl_map]

theorem insertWorkloadIdentityVirtualBindings_eq (apiVersion : Option String)
    (meta : Metadata) (cb : ObjMap) :
    insertWorkloadIdentityVirtualBindings apiVersion meta cb =
      objSetList (workloadIdentityVirtKVs apiVersion meta) cb := by
  unfold insertWorkloadIdentityVirtualBindings objSetList workloadIdentityVirtKVs
  rw [List.foldl_map]

theorem mem_secretVirtKVs {meta : Metadata} {p : String × Record}
    (h : p ∈ secretVirtKVs meta) :
    ∃ t, p.1 = namespaceNameKey meta ++ "/" ++ t ∧ p.2 = mkSecretVirtualBinding meta t := by
  rcases List.mem_map.mp h with ⟨t, _, ht⟩
  exact ⟨t, by rw [← ht], by rw [← ht]⟩

theorem mem_workloadIdentityVirtKVs {apiVersion : Option String} {meta : Metadata}
    {p : String × Record} (h : p ∈ workloadIdentityVirtKVs apiVersion meta) :
    ∃ t, p.1 = namespaceNameKey meta ++ "/" ++ t ∧
      p.2 = mkWorkloadIdentityVirtualBinding apiVersion meta t := by
  rcases List.mem_map.mp h with ⟨t, _, ht⟩
  exact ⟨t, by rw [← ht], by rw [← ht]⟩

/-- Normal form of the secret branch of `_updateCloudProviderCredential`:
kind-scoped prefix deletion followed by the virtual-binding insertions. -/
theorem update_secret_cb (s : State) (secret : Record) :
    (_updateCloudProviderCredential s none (some secret)).credentialsBindings =
      objSetList (secretVirtKVs secret.metadata)
        (s.credentialsBindings.filter fun p =>
          !((p.1 == namespaceNameKey secret.metadata ||
              jsStartsWith p.1 (namespaceNameKey secret.metadata ++ "/")) &&
            p.2.kind == some "Secret")) := by
  show insertSecretVirtualBindings secret.metadata _ = _
  rw [insertSecretVirtualBindings_eq]

/-- Characterization of a kind-stamping upsert loop over a fetched collection:
lookup yields the stamped version of the last collection element with the
looked-up key. -/
theorem objGet_upsert_fold (l : List Record) (f : Record → Record) (k : String) :
    objGet (l.foldl (fun m item => objSet m (namespaceNameKey item.metadata) (f item)) []) k =
      ((l.filter fun r => namespaceNameKey r.metadata == k).getLast?).map f := by
  have h1 : l.foldl (fun m item => objSet m (namespaceNameKey item.metadata) (f item)) [] =
      objSetList (l.map fun item => (namespaceNameKey item.metadata, f item)) [] := by
    unfold objSetList
    rw [List.foldl_map]
  rw [h1, objGet_objSetList, objGet_reverse_eq_getLast?_filter]
  have h2 : (l.map fun item => (namespaceNameKey item.metadata, f item)).filter
        (fun p => p.1 == k) =
      (l.filter fun r => namespaceNameKey r.metadata == k).map
        (fun item => (namespaceNameKey item.metadata, f item)) := by
    rw [List.filter_map]
    congr 1
  rw [h2, List.getLast?_map]
  cases (l.filter fun r => namespaceNameKey r.metadata == k).getLast? with
  | none => simp [objGet]
  | some r => simp

theorem map_filter_eq_filterMap {α β : Type} (p : α → Bool) (f : α → β) (l : List α) :
    (l.filter p).map f = l.filterMap fun a => if p a then some (f a) else none := by
  induction l with
  | nil => rfl
  | cons a rest ih =>
    by_cases h : p a
    · simp [List.filter_cons, List.filterMap_cons, h, ih]
    · simp [List.filter_cons, List.filterMap_cons, h, ih]

/-! ### Claim theorems -/

/-- C1: if the external fetch invoked by `fetchCredentials` fails, every one of
the five mappings is empty afterwards and the failure is re-raised; no
partially populated state survives. -/
theorem fetchCredentials_failure_resets (ε : Type) (e : ε) (s : State) :
    fetchCredentials (Except.error e) s =
      ({ secretBindings := [], secrets := [], credentialsBindings := []
         workloadIdentities := [], quotas := [] }, some e) := rfl

/-- C9: if the external call inside `createCredential` or `updateCredential`
fails, the error is re-raised and all five mappings are left exactly equal to
their values before the call. -/
theorem createUpdate_failure_preserves_state (ε : Type) (e : ε) (s : State) :
    createCredential (Except.error e) s = (s, some e) ∧
      updateCredential (Except.error e) s = (s, some e) :=
  ⟨rfl, rfl⟩

/-- C10: a virtual binding carries the owner's own metadata with only the uid
altered to `uid ++ "-" ++ tag`, so the Key Index of its metadata is the
owner's key, which differs from the storage key `ownerKey ++ "/" ++ tag`. -/
theorem virtualBinding_metadata_keeps_owner_key (meta : Metadata) (t : String)
    (apiVersion : Option String) :
    (mkSecretVirtualBinding meta t).metadata = { meta with uid := meta.uid ++ "-" ++ t } ∧
    namespaceNameKey (mkSecretVirtualBinding meta t).metadata = namespaceNameKey meta ∧
    namespaceNameKey (mkSecretVirtualBinding meta t).metadata ≠
      namespaceNameKey meta ++ "/" ++ t ∧
    (mkWorkloadIdentityVirtualBinding apiVersion meta t).metadata =
      { meta with uid := meta.uid ++ "-" ++ t } ∧
    namespaceNameKey (mkWorkloadIdentityVirtualBinding apiVersion meta t).metadata =
      namespaceNameKey meta ∧
    namespaceNameKey (mkWorkloadIdentityVirtualBinding apiVersion meta t).metadata ≠
      namespaceNameKey meta ++ "/" ++ t :=
  ⟨rfl, rfl, key_ne_key_slash (namespaceNameKey meta) t, rfl, rfl,
    key_ne_key_slash (namespaceNameKey meta) t⟩

/-- C8: the capability extractor returns exactly the label keys with the fixed
prefix and value `"true"`, prefix-stripped, in insertion order; an absent or
empty label mapping yields the empty sequence.  Every returned tag `t` comes
from a label entry that is literally `(providerPrefix ++ t, "true")`. -/
theorem capabilityExtractor_correct :
    providerTypesFromLabels none = [] ∧
    providerTypesFromLabels (some []) = [] ∧
    ∀ l : List (String × String),
      providerTypesFromLabels (some l) =
        (l.filterMap fun kv =>
          if jsStartsWith kv.1 providerPrefix = true ∧ kv.2 = "true" then
            some (jsSlice kv.1 providerPrefix.length)
          else none) ∧
      ∀ t ∈ providerTypesFromLabels (some l), (providerPrefix ++ t, "true") ∈ l := by
  refine ⟨rfl, rfl, fun l => ⟨?_, ?_⟩⟩
  · unfold providerTypesFromLabels
    simp only [Option.getD_some]
    rw [map_filter_eq_filterMap]
    apply List.filterMap_congr
    intro kv _
    by_cases h1 : jsStartsWith kv.1 providerPrefix = true <;>
      by_cases h2 : kv.2 = "true" <;>
      simp [h1, h2]
  · intro t ht
    unfold providerTypesFromLabels at ht
    simp only [Option.getD_some] at ht
    rcases List.mem_map.mp ht with ⟨kv, hkv, hft⟩
    obtain ⟨k₀, v₀⟩ := kv
    have hmem := (List.mem_filter.mp hkv).1
    have hpred := (List.mem_filter.mp hkv).2
    have h' : v₀ = "true" ∧ jsStartsWith k₀ providerPrefix = true := by
      simpa using hpred
    obtain ⟨hv, hstart⟩ := h'
    have hrec := jsStartsWith_recover (s := k₀) hstart
    subst hv
    rw [← hft]
    simp only
    rw [← hrec]
    exact hmem

/-- C5: fetching one Secret `a/s1` with uid `u1` and label
`provider.shoot.gardener.cloud/aws: "true"` and nothing else yields a
one-element `allBindings` view whose sole element is stored under key
`"a/s1/aws"`, has kind `"Secret"`, provider type `"aws"` and uid `"u1-aws"`. -/
theorem endToEnd_singleSecret :
    cloudProviderBindingList (_setCredentials ⟨[], [], [], [], []⟩ e2eData) =
      [mkSecretVirtualBinding e2eSecret.metadata "aws"] ∧
    objGet (_setCredentials ⟨[], [], [], [], []⟩ e2eData).credentialsBindings "a/s1/aws" =
      some (mkSecretVirtualBinding e2eSecret.metadata "aws") ∧
    (mkSecretVirtualBinding e2eSecret.metadata "aws").kind = some "Secret" ∧
    (mkSecretVirtualBinding e2eSecret.metadata "aws").provider = some { type' := "aws" } ∧
    (mkSecretVirtualBinding e2eSecret.metadata "aws").metadata.uid = "u1-aws" := by
  refine ⟨?_, ?_, rfl, rfl, ?_⟩ <;> decide

/-- C7 counterexample: a record supplied to the full-refresh path with its kind
field already set by the source (here `"Foo"`) is *not* stored with that kind
unchanged: the stored kind is the mapping's kind `"SecretBinding"`. -/
theorem upsert_overwrites_source_kind :
    taggedSourceRecord.kind = some "Foo" ∧
    objGet ((_setCredentials ⟨[], [], [], [], []⟩
        { secretBindings := some [taggedSourceRecord] }).secretBindings) "a/x" ≠
      some taggedSourceRecord ∧
    (objGet ((_setCredentials ⟨[], [], [], [], []⟩
        { secretBindings := some [taggedSourceRecord] }).secretBindings) "a/x").map Record.kind =
      some (some "SecretBinding") := by
  refine ⟨rfl, ?_, ?_⟩ <;> decide

/-- C2: re-synthesizing a secret's virtual bindings removes only
credentials-bindings entries whose kind equals the owner's kind (`"Secret"`)
and whose key equals the owner's key or starts with it followed by `"/"`; an
explicit `CredentialsBinding` record stored under the secret's own
namespace/name key is never deleted or altered. -/
theorem synthesis_removal_kind_scoped (s : State) (secret : Record)
    (hwf : WfMap s.credentialsBindings) :
    (∀ k r, objGet s.credentialsBindings k = some r →
      objGet (_updateCloudProviderCredential s none (some secret)).credentialsBindings k =
        none →
      r.kind = some "Secret" ∧
        (k = namespaceNameKey secret.metadata ∨
          jsStartsWith k (namespaceNameKey secret.metadata ++ "/") = true)) ∧
    (∀ r, objGet s.credentialsBindings (namespaceNameKey secret.metadata) = some r →
      r.kind = some "CredentialsBinding" →
      objGet (_updateCloudProviderCredential s none (some secret)).credentialsBindings
        (namespaceNameKey secret.metadata) = some r) := by
  constructor
  · intro k r hsome hnone
    rw [update_secret_cb, objGet_objSetList] at hnone
    cases hv : objGet (secretVirtKVs secret.metadata).reverse k with
    | some v => rw [hv] at hnone; exact absurd hnone (by simp)
    | none =>
      rw [hv] at hnone
      rw [objGet_filter hwf, hsome] at hnone
      by_cases hret : ((k == namespaceNameKey secret.metadata ||
          jsStartsWith k (namespaceNameKey secret.metadata ++ "/")) &&
          (r.kind == some "Secret")) = true
      · have h1 : (k = namespaceNameKey secret.metadata ∨
            jsStartsWith k (namespaceNameKey secret.metadata ++ "/") = true) ∧
            r.kind = some "Secret" := by
          simpa using hret
        exact ⟨h1.2, h1.1⟩
      · exfalso
        rw [Bool.not_eq_true] at hret
        simp [hret] at hnone
  · intro r hsome hkind
    rw [update_secret_cb, objGet_objSetList]
    cases hv : objGet (secretVirtKVs secret.metadata).reverse
        (namespaceNameKey secret.metadata) with
    | some v =>
      exfalso
      have hmem := List.mem_reverse.mp (mem_of_objGet_eq_some hv)
      rcases mem_secretVirtKVs hmem with ⟨t, ht, _⟩
      exact key_ne_key_slash (namespaceNameKey secret.metadata) t ht
    | none =>
      rw [objGet_filter hwf, hsome]
      have hcond : (!((namespaceNameKey secret.metadata == namespaceNameKey secret.metadata ||
          jsStartsWith (namespaceNameKey secret.metadata)
            (namespaceNameKey secret.metadata ++ "/")) &&
          (r.kind == some "Secret"))) = true := by
        simp [hkind]
      simp only [hcond, if_true]

/-- Witness for C2 at a concrete store and secret. -/
theorem synthesis_removal_kind_scoped_witness :
    objGet ((_updateCloudProviderCredential c2Store none
        (some { metadata := { namespace' := "a", name := "x", uid := "u" } })).credentialsBindings)
      "a/x" =
      some { kind := some "CredentialsBinding"
             metadata := { namespace' := "a", name := "x", uid := "cb" } } :=
  (synthesis_removal_kind_scoped c2Store
      { metadata := { namespace' := "a", name := "x", uid := "u" } } (by decide)).2
    { kind := some "CredentialsBinding"
      metadata := { namespace' := "a", name := "x", uid := "cb" } }
    (by decide) rfl

/-- C3: synthesis is idempotent — running the virtual-binding refresh twice
with the same unchanged secret leaves the credentials-bindings mapping with
exactly the same keys and values as running it once. -/
theorem synthesis_idempotent (s : State) (secret : Record)
    (hwf : WfMap s.credentialsBindings) (k : String) :
    objGet (_updateCloudProviderCredential
        (_updateCloudProviderCredential s none (some secret)) none
        (some secret)).credentialsBindings k =
      objGet (_updateCloudProviderCredential s none (some secret)).credentialsBindings k := by
  have hwfF : WfMap (s.credentialsBindings.filter fun p =>
      !((p.1 == namespaceNameKey secret.metadata ||
          jsStartsWith p.1 (namespaceNameKey secret.metadata ++ "/")) &&
        p.2.kind == some "Secret")) := wfMap_filter hwf _
  have hwfOnce : WfMap (objSetList (secretVirtKVs secret.metadata)
      (s.credentialsBindings.filter fun p =>
        !((p.1 == namespaceNameKey secret.metadata ||
            jsStartsWith p.1 (namespaceNameKey secret.metadata ++ "/")) &&
          p.2.kind == some "Secret"))) := wfMap_objSetList hwfF _
  rw [update_secret_cb, update_secret_cb, objGet_objSetList, objGet_objSetList]
  cases hv : objGet (secretVirtKVs secret.metadata).reverse k with
  | some v => rfl
  | none =>
    rw [objGet_filter hwfOnce, objGet_objSetList, hv, objGet_filter hwf]
    cases hsk : objGet s.credentialsBindings k with
    | none => rfl
    | some r =>
      by_cases hret : (!((k == namespaceNameKey secret.metadata ||
          jsStartsWith k (namespaceNameKey secret.metadata ++ "/")) &&
          (r.kind == some "Secret"))) = true
      · simp [hret]
      · rw [Bool.not_eq_true] at hret
        simp [hret]

/-- Witness for C3 at a concrete store, secret and key. -/
theorem synthesis_idempotent_witness :
    objGet (_updateCloudProviderCredential
        (_updateCloudProviderCredential c3Store none (some c3Secret)) none
        (some c3Secret)).credentialsBindings "a/x/aws" =
      objGet (_updateCloudProviderCredential c3Store none
        (some c3Secret)).credentialsBindings "a/x/aws" :=
  synthesis_idempotent c3Store c3Secret (by decide) "a/x/aws"

theorem providerTypes_pair (A B : String) :
    providerTypesFromLabels
        (some [(providerPrefix ++ A, "true"), (providerPrefix ++ B, "true")]) = [A, B] := by
  unfold providerTypesFromLabels
  simp [List.filter_cons, jsStartsWith_append, jsSlice_append]

theorem secretVirtKVs_pair (meta : Metadata) (A B : String)
    (hlab : meta.labels = some [(providerPrefix ++ A, "true"), (providerPrefix ++ B, "true")]) :
    secretVirtKVs meta =
      [(namespaceNameKey meta ++ "/" ++ A, mkSecretVirtualBinding meta A),
       (namespaceNameKey meta ++ "/" ++ B, mkSecretVirtualBinding meta B)] := by
  unfold secretVirtKVs
  rw [hlab, providerTypes_pair]
  rfl

/-- C4: an owner whose capability tags were `{A,B}`, updated through the
single-resource update path to tags `{B,C}`, afterwards has virtual entries
under `ownerKey/B` and `ownerKey/C` but none under `ownerKey/A`. -/
theorem update_labelChange_consistency (s : State) (hwf : WfMap s.credentialsBindings)
    (ns nm uid₁ uid₂ A B C : String) (hAB : A ≠ B) (hAC : A ≠ C) (hBC : B ≠ C) :
    objGet ((_updateCloudProviderCredential
        (_updateCloudProviderCredential s none (some (labeledSecret ns nm uid₁ A B)))
        none (some (labeledSecret ns nm uid₂ B C))).credentialsBindings)
      (namespaceNameKey (labeledSecret ns nm uid₂ B C).metadata ++ "/" ++ B) =
      some (mkSecretVirtualBinding (labeledSecret ns nm uid₂ B C).metadata B) ∧
    objGet ((_updateCloudProviderCredential
        (_updateCloudProviderCredential s none (some (labeledSecret ns nm uid₁ A B)))
        none (some (labeledSecret ns nm uid₂ B C))).credentialsBindings)
      (namespaceNameKey (labeledSecret ns nm uid₂ B C).metadata ++ "/" ++ C) =
      some (mkSecretVirtualBinding (labeledSecret ns nm uid₂ B C).metadata C) ∧
    objGet ((_updateCloudProviderCredential
        (_updateCloudProviderCredential s none (some (labeledSecret ns nm uid₁ A B)))
        none (some (labeledSecret ns nm uid₂ B C))).credentialsBindings)
      (namespaceNameKey (labeledSecret ns nm uid₂ B C).metadata ++ "/" ++ A) = none := by
  have hKV1 := secretVirtKVs_pair (labeledSecret ns nm uid₁ A B).metadata A B rfl
  have hKV2 := secretVirtKVs_pair (labeledSecret ns nm uid₂ B C).metadata B C rfl
  have hK12 : namespaceNameKey (labeledSecret ns nm uid₁ A B).metadata =
      namespaceNameKey (labeledSecret ns nm uid₂ B C).metadata := rfl
  set K := namespaceNameKey (labeledSecret ns nm uid₂ B C).metadata with hK
  have hBA : K ++ "/" ++ B ≠ K ++ "/" ++ A := fun h => hAB (string_append_cancel_left h).symm
  have hCA : K ++ "/" ++ C ≠ K ++ "/" ++ A := fun h => hAC (string_append_cancel_left h).symm
  have hCB : K ++ "/" ++ C ≠ K ++ "/" ++ B := fun h => hBC (string_append_cancel_left h).symm
  have hwf1 : WfMap (_updateCloudProviderCredential s none
      (some (labeledSecret ns nm uid₁ A B))).credentialsBindings := by
    rw [update_secret_cb]
    exact wfMap_objSetList (wfMap_filter hwf _) _
  refine ⟨?_, ?_, ?_⟩
  · rw [update_secret_cb, objGet_objSetList, hKV2]
    simp [objGet, hCB]
  · rw [update_secret_cb, objGet_objSetList, hKV2]
    simp [objGet]
  · rw [update_secret_cb, objGet_objSetList, hKV2]
    have hs1 : objGet (_updateCloudProviderCredential s none
        (some (labeledSecret ns nm uid₁ A B))).credentialsBindings (K ++ "/" ++ A) =
        some (mkSecretVirtualBinding (labeledSecret ns nm uid₁ A B).metadata A) := by
      rw [update_secret_cb, objGet_objSetList, hKV1, hK12]
      simp [objGet, hBA]
    have hstart : jsStartsWith (K ++ "/" ++ A) (K ++ "/") = true :=
      jsStartsWith_append (K ++ "/") A
    simp only [objGet, List.reverse_cons, List.reverse_nil, List.nil_append,
      List.cons_append, if_neg hCA, if_neg hBA]
    rw [objGet_filter hwf1, hs1]
    simp [hstart, mkSecretVirtualBinding]

/-- Witness for C4 at concrete inputs. -/
theorem update_labelChange_consistency_witness :
    objGet ((_updateCloudProviderCredential
        (_updateCloudProviderCredential ⟨[], [], [], [], []⟩ none
          (some (labeledSecret "a" "x" "u1" "aws" "gcp")))
        none (some (labeledSecret "a" "x" "u2" "gcp" "az"))).credentialsBindings)
      (namespaceNameKey (labeledSecret "a" "x" "u2" "gcp" "az").metadata ++ "/" ++ "gcp") =
      some (mkSecretVirtualBinding (labeledSecret "a" "x" "u2" "gcp" "az").metadata "gcp") ∧
    objGet ((_updateCloudProviderCredential
        (_updateCloudProviderCredential ⟨[], [], [], [], []⟩ none
          (some (labeledSecret "a" "x" "u1" "aws" "gcp")))
        none (some (labeledSecret "a" "x" "u2" "gcp" "az"))).credentialsBindings)
      (namespaceNameKey (labeledSecret "a" "x" "u2" "gcp" "az").metadata ++ "/" ++ "az") =
      some (mkSecretVirtualBinding (labeledSecret "a" "x" "u2" "gcp" "az").metadata "az") ∧
    objGet ((_updateCloudProviderCredential
        (_updateCloudProviderCredential ⟨[], [], [], [], []⟩ none
          (some (labeledSecret "a" "x" "u1" "aws" "gcp")))
        none (some (labeledSecret "a" "x" "u2" "gcp" "az"))).credentialsBindings)
      (namespaceNameKey (labeledSecret "a" "x" "u2" "gcp" "az").metadata ++ "/" ++ "aws") =
        none :=
  update_labelChange_consistency ⟨[], [], [], [], []⟩ (by decide) "a" "x" "u1" "u2"
    "aws" "gcp" "az" (by decide) (by decide) (by decide)

/-- C6 counterexample: on a fetch payload containing two secrets with the same
namespace/name key, `_setCredentials` (which synthesizes while it upserts)
keeps the first secret's stale virtual binding `a/s1/aws`, while the spec's
order — all upserts first, then synthesis per inserted owner — ends with no
entry under that key.  The two orderings are therefore not equivalent. -/
theorem replaceAll_not_equivalent_to_specOrder :
    objGet (_setCredentials ⟨[], [], [], [], []⟩ dupData).credentialsBindings "a/s1/aws" =
      some (mkSecretVirtualBinding dupSecretA.metadata "aws") ∧
    objGet (replaceAllSpec ⟨[], [], [], [], []⟩ dupData).credentialsBindings "a/s1/aws" =
      none ∧
    objGet (_setCredentials ⟨[], [], [], [], []⟩ dupData).credentialsBindings "a/s1/aws" ≠
      objGet (replaceAllSpec ⟨[], [], [], [], []⟩ dupData).credentialsBindings "a/s1/aws" := by
  refine ⟨?_, ?_, ?_⟩ <;> decide

theorem setCredentials_secrets_eq (s : State) (d : CredData) :
    (_setCredentials s d).secrets =
      (d.secrets.getD []).foldl (fun m item =>
        objSet m (namespaceNameKey item.metadata) { item with kind := some "Secret" }) [] := by
  show (List.foldl _ (([], []) : ObjMap × ObjMap) _).1 = _
  rw [foldl_pair (d.secrets.getD []) _
    (fun m item => objSet m (namespaceNameKey item.metadata) { item with kind := some "Secret" })
    (fun cb item => insertSecretVirtualBindings item.metadata cb)
    (fun p x => rfl) [] []]

theorem setCredentials_workloadIdentities_eq (s : State) (d : CredData) :
    (_setCredentials s d).workloadIdentities =
      (d.workloadIdentities.getD []).foldl (fun m item =>
        objSet m (namespaceNameKey item.metadata)
          { item with kind := some "WorkloadIdentity" }) [] := by
  show (List.foldl _ (([], _) : ObjMap × ObjMap) _).1 = _
  rw [foldl_pair (d.workloadIdentities.getD []) _
    (fun m item => objSet m (namespaceNameKey item.metadata)
      { item with kind := some "WorkloadIdentity" })
    (fun cb item => insertWorkloadIdentityVirtualBindings item.apiVersion item.metadata cb)
    (fun p x => rfl) [] _]

theorem cbLoop_eq_objSetList (d : CredData) (cb0 : ObjMap) :
    (d.credentialsBindings.getD []).foldl (fun m item =>
      objSet m (namespaceNameKey item.metadata)
        { item with kind := some "CredentialsBinding" }) cb0 =
      objSetList (explicitCbKVs d) cb0 := by
  unfold objSetList explicitCbKVs
  rw [List.foldl_map]

/-- Normal form of the code's `credentialsBindings` construction in
`_setCredentials`: secret virtuals, then explicit bindings, then
workload-identity virtuals, as successive write sequences. -/
theorem setCredentials_cb_normal (s : State) (d : CredData) :
    (_setCredentials s d).credentialsBindings =
      objSetList (workloadIdentityVirtKVsAll d)
        (objSetList (explicitCbKVs d) (objSetList (secretVirtKVsAll d) [])) := by
  show (List.foldl _ (([], _) : ObjMap × ObjMap) _).2 = _
  rw [foldl_pair (d.workloadIdentities.getD []) _
    (fun m item => objSet m (namespaceNameKey item.metadata)
      { item with kind := some "WorkloadIdentity" })
    (fun cb item => insertWorkloadIdentityVirtualBindings item.apiVersion item.metadata cb)
    (fun p x => rfl) [] _]
  show (d.workloadIdentities.getD []).foldl _
    ((d.credentialsBindings.getD []).foldl _
      ((List.foldl _ (([], []) : ObjMap × ObjMap) _).2)) = _
  rw [foldl_pair (d.secrets.getD []) _
    (fun m item => objSet m (namespaceNameKey item.metadata) { item with kind := some "Secret" })
    (fun cb item => insertSecretVirtualBindings item.metadata cb)
    (fun p x => rfl) [] []]
  simp only [insertSecretVirtualBindings_eq, insertWorkloadIdentityVirtualBindings_eq]
  rw [foldl_setList_flatMap (d.secrets.getD []) (fun item => secretVirtKVs item.metadata)]
  rw [cbLoop_eq_objSetList]
  rw [foldl_setList_flatMap (d.workloadIdentities.getD [])
    (fun item => workloadIdentityVirtKVs item.apiVersion item.metadata)]
  rfl

/-- Normal form of the spec-ordered `replaceAllSpec` `credentialsBindings`
construction: under distinct owner keys and slash-free metadata, the
kind-scoped deletions inside the synthesizer find nothing to delete, leaving
explicit bindings, then secret virtuals, then workload-identity virtuals. -/
theorem replaceAllSpec_cb_normal (s : State) (d : CredData)
    (hsK : ((d.secrets.getD []).map fun r => namespaceNameKey r.metadata).Nodup)
    (hwK : ((d.workloadIdentities.getD []).map fun r => namespaceNameKey r.metadata).Nodup)
    (hsf : ∀ r ∈ d.secrets.getD [], SlashFree r.metadata)
    (hwif : ∀ r ∈ d.workloadIdentities.getD [], SlashFree r.metadata) :
    (replaceAllSpec s d).credentialsBindings =
      objSetList (workloadIdentityVirtKVsAll d)
        (objSetList (secretVirtKVsAll d) (objSetList (explicitCbKVs d) [])) := by
  have h0 : (replaceAllSpec s d).credentialsBindings =
      (d.workloadIdentities.getD []).foldl (fun cb item =>
        synthesizeWorkloadIdentitySpec item.apiVersion item.metadata cb)
        ((d.secrets.getD []).foldl (fun cb item => synthesizeSecretSpec item.metadata cb)
          ((d.credentialsBindings.getD []).foldl (fun m item =>
            objSet m (namespaceNameKey item.metadata)
              { item with kind := some "CredentialsBinding" }) [])) := rfl
  rw [h0, cbLoop_eq_objSetList]
  have hsPair : (d.secrets.getD []).Pairwise
      (fun a b => namespaceNameKey a.metadata ≠ namespaceNameKey b.metadata) :=
    List.pairwise_map.mp hsK
  have hwPair : (d.workloadIdentities.getD []).Pairwise
      (fun a b => namespaceNameKey a.metadata ≠ namespaceNameKey b.metadata) :=
    List.pairwise_map.mp hwK
  have hsec : (d.secrets.getD []).foldl (fun cb item => synthesizeSecretSpec item.metadata cb)
      (objSetList (explicitCbKVs d) []) =
      objSetList (secretVirtKVsAll d) (objSetList (explicitCbKVs d) []) := by
    simp only [synthesizeSecretSpec, deleteOwnerScopedSpec, insertSecretVirtualBindings_eq]
    rw [foldl_synth_eq (d.secrets.getD []) (fun item => secretVirtKVs item.metadata)
      (fun item p => !((p.1 == namespaceNameKey item.metadata ||
        jsStartsWith p.1 (namespaceNameKey item.metadata ++ "/")) &&
        p.2.kind == some "Secret")) _ ?_ ?_]
    · rfl
    · intro item _ p hp
      rcases mem_objSetList hp with h | h
      · simp at h
      · rcases List.mem_map.mp h with ⟨r, _, hpr⟩
        have hkind : p.2.kind = some "CredentialsBinding" := by rw [← hpr]
        simp [hkind]
    · refine hsPair.imp_of_mem ?_
      intro a b ha hb hne p hp
      rcases mem_secretVirtKVs hp with ⟨t, hpt, _⟩
      rcases key_shape_separation (hsf a ha) (hsf b hb) hne t with ⟨hne2, hsw⟩
      show (!((p.1 == namespaceNameKey b.metadata ||
        jsStartsWith p.1 (namespaceNameKey b.metadata ++ "/")) &&
        p.2.kind == some "Secret")) = true
      rw [hpt]
      simp [hsw, hne2]
  rw [hsec]
  have hwi : (d.workloadIdentities.getD []).foldl (fun cb item =>
      synthesizeWorkloadIdentitySpec item.apiVersion item.metadata cb)
      (objSetList (secretVirtKVsAll d) (objSetList (explicitCbKVs d) [])) =
      objSetList (workloadIdentityVirtKVsAll d)
        (objSetList (secretVirtKVsAll d) (objSetList (explicitCbKVs d) [])) := by
    simp only [synthesizeWorkloadIdentitySpec, deleteOwnerScopedSpec,
      insertWorkloadIdentityVirtualBindings_eq]
    rw [foldl_synth_eq (d.workloadIdentities.getD [])
      (fun item => workloadIdentityVirtKVs item.apiVersion item.metadata)
      (fun item p => !((p.1 == namespaceNameKey item.metadata ||
        jsStartsWith p.1 (namespaceNameKey item.metadata ++ "/")) &&
        p.2.kind == some "WorkloadIdentity")) _ ?_ ?_]
    · rfl
    · intro item _ p hp
      rcases mem_objSetList hp with h | h
      · rcases mem_objSetList h with h' | h'
        · simp at h'
        · rcases List.mem_map.mp h' with ⟨r, _, hpr⟩
          have hkind : p.2.kind = some "CredentialsBinding" := by rw [← hpr]
          simp [hkind]
      · rcases List.mem_flatMap.mp h with ⟨item', _, hp'⟩
        rcases mem_secretVirtKVs hp' with ⟨t, _, hpv⟩
        have hkind : p.2.kind = some "Secret" := by rw [hpv]; rfl
        simp [hkind]
    · refine hwPair.imp_of_mem ?_
      intro a b ha hb hne p hp
      rcases mem_workloadIdentityVirtKVs hp with ⟨t, hpt, _⟩
      rcases key_shape_separation (hwif a ha) (hwif b hb) hne t with ⟨hne2, hsw⟩
      show (!((p.1 == namespaceNameKey b.metadata ||
        jsStartsWith p.1 (namespaceNameKey b.metadata ++ "/")) &&
        p.2.kind == some "WorkloadIdentity")) = true
      rw [hpt]
      simp [hsw, hne2]
  rw [hwi]

/-- C6 (amended): provided the fetched secrets and workload identities have
pairwise distinct namespace/name keys and all fetched secrets, workload
identities and explicit credentials bindings have slash-free namespaces and
names (the spec's key-space separation assumption), `_setCredentials` is
equivalent to the spec's replaceAll order — reset, upsert every element of
each supplied collection, then synthesize each inserted Secret and
WorkloadIdentity: the four plain mappings coincide and the
credentials-bindings mappings agree as key-to-record maps.  Neither result
depends on the prior store state, so no data from before the call survives. -/
theorem replaceAll_equiv_specOrder (s s' : State) (d : CredData)
    (hsK : ((d.secrets.getD []).map fun r => namespaceNameKey r.metadata).Nodup)
    (hwK : ((d.workloadIdentities.getD []).map fun r => namespaceNameKey r.metadata).Nodup)
    (hsf : ∀ r ∈ d.secrets.getD [], SlashFree r.metadata)
    (hwif : ∀ r ∈ d.workloadIdentities.getD [], SlashFree r.metadata)
    (hcf : ∀ r ∈ d.credentialsBindings.getD [], SlashFree r.metadata) :
    (_setCredentials s d).secretBindings = (replaceAllSpec s' d).secretBindings ∧
    (_setCredentials s d).secrets = (replaceAllSpec s' d).secrets ∧
    (_setCredentials s d).workloadIdentities = (replaceAllSpec s' d).workloadIdentities ∧
    (_setCredentials s d).quotas = (replaceAllSpec s' d).quotas ∧
    ∀ k, objGet (_setCredentials s d).credentialsBindings k =
      objGet (replaceAllSpec s' d).credentialsBindings k := by
  refine ⟨rfl, ?_, ?_, rfl, ?_⟩
  · rw [setCredentials_secrets_eq]
    rfl
  · rw [setCredentials_workloadIdentities_eq]
    rfl
  · intro k
    rw [setCredentials_cb_normal, replaceAllSpec_cb_normal s' d hsK hwK hsf hwif]
    rw [objGet_objSetList, objGet_objSetList, objGet_objSetList, objGet_objSetList,
      objGet_objSetList, objGet_objSetList]
    cases hw : objGet (workloadIdentityVirtKVsAll d).reverse k with
    | some v => rfl
    | none =>
      cases hc : objGet (explicitCbKVs d).reverse k with
      | none =>
        cases hs2 : objGet (secretVirtKVsAll d).reverse k with
        | none => rfl
        | some vs => rfl
      | some vc =>
        cases hs2 : objGet (secretVirtKVsAll d).reverse k with
        | none => rfl
        | some vs =>
          exfalso
          have h1 := List.mem_reverse.mp (mem_of_objGet_eq_some hc)
          rcases List.mem_map.mp h1 with ⟨r, hr, hpr⟩
          have hk1 : namespaceNameKey r.metadata = k := congrArg Prod.fst hpr
          have h2 := List.mem_reverse.mp (mem_of_objGet_eq_some hs2)
          rcases List.mem_flatMap.mp h2 with ⟨item, hitem, hp2⟩
          rcases mem_secretVirtKVs hp2 with ⟨t, hpt, _⟩
          exact explicit_key_ne_virtualKey (hcf r hr) (hsf item hitem) t
            (hk1.trans hpt)

/-- Witness for C6 (amended) at the concrete payload and key `a/s1/aws`. -/
theorem replaceAll_equiv_specOrder_witness :
    objGet (_setCredentials ⟨[], [], [], [], []⟩ c6Data).credentialsBindings "a/s1/aws" =
      objGet (replaceAllSpec c6PriorStore c6Data).credentialsBindings "a/s1/aws" :=
  (replaceAll_equiv_specOrder ⟨[], [], [], [], []⟩ c6PriorStore c6Data
    (by decide) (by decide) (by decide) (by decide) (by decide)).2.2.2.2 "a/s1/aws"

/-- Lookup in the reversal of a key/value list built by mapping records to
`(key, f record)` pairs: the last matching record, transformed by `f`. -/
theorem objGet_reverse_map_kvs (l : List Record) (f : Record → Record) (k : String) :
    objGet ((l.map fun item => (namespaceNameKey item.metadata, f item)).reverse) k =
      ((l.filter fun r => namespaceNameKey r.metadata == k).getLast?).map f := by
  rw [objGet_reverse_eq_getLast?_filter]
  have h2 : (l.map fun item => (namespaceNameKey item.metadata, f item)).filter
        (fun p => p.1 == k) =
      (l.filter fun r => namespaceNameKey r.metadata == k).map
        (fun item => (namespaceNameKey item.metadata, f item)) := by
    rw [List.filter_map]
    congr 1
  rw [h2, List.getLast?_map]
  cases (l.filter fun r => namespaceNameKey r.metadata == k).getLast? with
  | none => rfl
  | some r => rfl

/-- C7 (amended): the full-refresh upsert stores every supplied record in its
collection's mapping under its namespace/name key with last-write-wins
semantics, and keys are unique in every resulting mapping.  The secret-bindings,
secrets, workload-identities and credentials-bindings mappings stamp the stored
record's kind with the mapping's kind, overwriting any source-set kind, while
quota records are stored unchanged (no kind is ever stamped there).  For the
shared credentials-bindings mapping the characterization holds at every
explicit record's key, under the slash-free key-space separation that keeps
explicit keys apart from virtual ones. -/
theorem upsert_stamps_kind_lastWriteWins (s : State) (d : CredData)
    (hwif : ∀ r ∈ d.workloadIdentities.getD [], SlashFree r.metadata)
    (hcf : ∀ r ∈ d.credentialsBindings.getD [], SlashFree r.metadata) :
    (∀ k, objGet ((_setCredentials s d).secretBindings) k =
      (((d.secretBindings.getD []).filter fun r =>
          namespaceNameKey r.metadata == k).getLast?).map
        (fun r => { r with kind := some "SecretBinding" })) ∧
    (∀ k, objGet ((_setCredentials s d).secrets) k =
      (((d.secrets.getD []).filter fun r =>
          namespaceNameKey r.metadata == k).getLast?).map
        (fun r => { r with kind := some "Secret" })) ∧
    (∀ k, objGet ((_setCredentials s d).workloadIdentities) k =
      (((d.workloadIdentities.getD []).filter fun r =>
          namespaceNameKey r.metadata == k).getLast?).map
        (fun r => { r with kind := some "WorkloadIdentity" })) ∧
    (∀ k, objGet ((_setCredentials s d).quotas) k =
      ((d.quotas.getD []).filter fun r => namespaceNameKey r.metadata == k).getLast?) ∧
    (∀ k r, r ∈ d.credentialsBindings.getD [] → namespaceNameKey r.metadata = k →
      objGet ((_setCredentials s d).credentialsBindings) k =
        (((d.credentialsBindings.getD []).filter fun r =>
            namespaceNameKey r.metadata == k).getLast?).map
          (fun r => { r with kind := some "CredentialsBinding" })) ∧
    WfMap ((_setCredentials s d).secretBindings) ∧
    WfMap ((_setCredentials s d).secrets) ∧
    WfMap ((_setCredentials s d).workloadIdentities) ∧
    WfMap ((_setCredentials s d).quotas) ∧
    WfMap ((_setCredentials s d).credentialsBindings) := by
  have hsb : (_setCredentials s d).secretBindings =
      (d.secretBindings.getD []).foldl (fun m item =>
        objSet m (namespaceNameKey item.metadata)
          { item with kind := some "SecretBinding" }) [] := rfl
  have hq : (_setCredentials s d).quotas =
      (d.quotas.getD []).foldl (fun m item =>
        objSet m (namespaceNameKey item.metadata) item) [] := rfl
  refine ⟨?_, ?_, ?_, ?_, ?_, ?_, ?_, ?_, ?_, ?_⟩
  · intro k
    rw [hsb, objGet_upsert_fold]
  · intro k
    rw [setCredentials_secrets_eq, objGet_upsert_fold]
  · intro k
    rw [setCredentials_workloadIdentities_eq, objGet_upsert_fold]
  · intro k
    rw [hq, objGet_upsert_fold (d.quotas.getD []) (fun item => item) k]
    cases ((d.quotas.getD []).filter fun r => namespaceNameKey r.metadata == k).getLast? with
    | none => rfl
    | some r => rfl
  · intro k r hr hrk
    rw [setCredentials_cb_normal, objGet_objSetList]
    cases hw : objGet (workloadIdentityVirtKVsAll d).reverse k with
    | some v =>
      exfalso
      have h2 := List.mem_reverse.mp (mem_of_objGet_eq_some hw)
      rcases List.mem_flatMap.mp h2 with ⟨item, hitem, hp2⟩
      rcases mem_workloadIdentityVirtKVs hp2 with ⟨t, hpt, _⟩
      exact explicit_key_ne_virtualKey (hcf r hr) (hwif item hitem) t (hrk.trans hpt)
    | none =>
      rw [objGet_objSetList]
      have hmid : objGet (explicitCbKVs d).reverse k =
          (((d.credentialsBindings.getD []).filter fun r =>
              namespaceNameKey r.metadata == k).getLast?).map
            (fun r => { r with kind := some "CredentialsBinding" }) :=
        objGet_reverse_map_kvs (d.credentialsBindings.getD []) _ k
      rw [hmid]
      have hne : ((d.credentialsBindings.getD []).filter fun r =>
          namespaceNameKey r.metadata == k) ≠ [] := by
        intro hempty
        have hmem : r ∈ (d.credentialsBindings.getD []).filter fun r =>
            namespaceNameKey r.metadata == k :=
          List.mem_filter.mpr ⟨hr, by simp [hrk]⟩
        rw [hempty] at hmem
        exact absurd hmem (List.not_mem_nil r)
      cases hlast : ((d.credentialsBindings.getD []).filter fun r =>
          namespaceNameKey r.metadata == k).getLast? with
      | none => exact absurd (List.getLast?_eq_none_iff.mp hlast) hne
      | some x => rfl
  · rw [hsb]
    have h1 : (d.secretBindings.getD []).foldl (fun m item =>
        objSet m (namespaceNameKey item.metadata)
          { item with kind := some "SecretBinding" }) [] =
        objSetList ((d.secretBindings.getD []).map fun item =>
          (namespaceNameKey item.metadata, { item with kind := some "SecretBinding" })) [] := by
      unfold objSetList
      rw [List.foldl_map]
    rw [h1]
    exact wfMap_objSetList (by simp [WfMap]) _
  · rw [setCredentials_secrets_eq]
    have h1 : (d.secrets.getD []).foldl (fun m item =>
        objSet m (namespaceNameKey item.metadata) { item with kind := some "Secret" }) [] =
        objSetList ((d.secrets.getD []).map fun item =>
          (namespaceNameKey item.metadata, { item with kind := some "Secret" })) [] := by
      unfold objSetList
      rw [List.foldl_map]
    rw [h1]
    exact wfMap_objSetList (by simp [WfMap]) _
  · rw [setCredentials_workloadIdentities_eq]
    have h1 : (d.workloadIdentities.getD []).foldl (fun m item =>
        objSet m (namespaceNameKey item.metadata)
          { item with kind := some "WorkloadIdentity" }) [] =
        objSetList ((d.workloadIdentities.getD []).map fun item =>
          (namespaceNameKey item.metadata,
            { item with kind := some "WorkloadIdentity" })) [] := by
      unfold objSetList
      rw [List.foldl_map]
    rw [h1]
    exact wfMap_objSetList (by simp [WfMap]) _
  · rw [hq]
    have h1 : (d.quotas.getD []).foldl (fun m item =>
        objSet m (namespaceNameKey item.metadata) item) [] =
        objSetList ((d.quotas.getD []).map fun item =>
          (namespaceNameKey item.metadata, item)) [] := by
      unfold objSetList
      rw [List.foldl_map]
    rw [h1]
    exact wfMap_objSetList (by simp [WfMap]) _
  · rw [setCredentials_cb_normal]
    exact wfMap_objSetList (wfMap_objSetList (wfMap_objSetList (by simp [WfMap]) _) _) _

/-- Witness for C7 (amended) at a concrete payload: a duplicate-key
secret-bindings collection and an explicit credentials binding whose
source-set kind gets stamped. -/
theorem upsert_stamps_kind_lastWriteWins_witness :
    objGet ((_setCredentials ⟨[], [], [], [], []⟩
        { secretBindings := some [taggedSourceRecord, taggedSourceRecord]
          credentialsBindings := some [c7CbRecord] }).credentialsBindings) "a/cb" =
      ((([c7CbRecord] : List Record).filter fun r =>
          namespaceNameKey r.metadata == "a/cb").getLast?).map
        (fun r => { r with kind := some "CredentialsBinding" }) :=
  (upsert_stamps_kind_lastWriteWins ⟨[], [], [], [], []⟩
    { secretBindings := some [taggedSourceRecord, taggedSourceRecord]
      credentialsBindings := some [c7CbRecord] }
    (by decide) (by decide)).2.2.2.2.1 "a/cb" c7CbRecord (by decide) (by decide)

/-- Witness for C8 at a concrete label mapping and tag. -/
theorem capabilityExtractor_correct_witness :
    (providerPrefix ++ "aws", "true") ∈
      [("provider.shoot.gardener.cloud/aws", "true")] :=
  (capabilityExtractor_correct.2.2 [("provider.shoot.gardener.cloud/aws", "true")]).2
    "aws" (by decide)

/-- Witness for C10 at a concrete owner and tag. -/
theorem virtualBinding_metadata_keeps_owner_key_witness :
    namespaceNameKey (mkSecretVirtualBinding
        { namespace' := "a", name := "s1", uid := "u1" } "aws").metadata =
      namespaceNameKey ({ namespace' := "a", name := "s1", uid := "u1" } : Metadata) ∧
    namespaceNameKey (mkSecretVirtualBinding
        { namespace' := "a", name := "s1", uid := "u1" } "aws").metadata ≠
      namespaceNameKey ({ namespace' := "a", name := "s1", uid := "u1" } : Metadata) ++
        "/" ++ "aws" :=
  ⟨(virtualBinding_metadata_keeps_owner_key
      { namespace' := "a", name := "s1", uid := "u1" } "aws" none).2.1,
   (virtualBinding_metadata_keeps_owner_key
      { namespace' := "a", name := "s1", uid := "u1" } "aws" none).2.2.1⟩
